import Mathlib

/-!
Shallow embedding of the Bybit auto-trader core
(`bybit_auto_trader.py`): indicator pipeline, signal engine,
risk manager (sizing, brackets, circuit breakers) and one cycle of the
trading loop.  Python floats are modelled as exact rationals; a Python
`None`-able float is `Option ℚ`; Python truthiness of such a value
(`None` and `0.0` are falsy) is the `truthy` predicate below.
-/

/-- Module-level configuration constant `RSI_LONG = 55.0`. -/
def RSI_LONG : ℚ := 55

/-- Module-level configuration constant `RSI_SHORT = 45.0`. -/
def RSI_SHORT : ℚ := 45

/-- Module-level configuration constant `ATR_SL_MULT = 1.5`. -/
def ATR_SL_MULT : ℚ := 3/2

/-- Module-level configuration constant `ATR_TP_MULT = 2.0`. -/
def ATR_TP_MULT : ℚ := 2

/-- Module-level configuration constant `RISK_PCT = 0.003`. -/
def RISK_PCT : ℚ := 3/1000

/-- Module-level configuration constant `MAX_LEVERAGE = 5`. -/
def MAX_LEVERAGE : ℚ := 5

/-- Module-level configuration constant `MAX_POS_EQUITY_FRAC = 0.2`. -/
def MAX_POS_EQUITY_FRAC : ℚ := 1/5

/-- Module-level configuration constant `DAILY_LOSS_LIMIT = 0.02`. -/
def DAILY_LOSS_LIMIT : ℚ := 1/50

/-- Module-level configuration constant `GLOBAL_DD_LIMIT = 0.05`. -/
def GLOBAL_DD_LIMIT : ℚ := 1/20

/-- Source helper `round_step(value, step) = math.floor(value/step)*step`. -/
def round_step (value step : ℚ) : ℚ := ⌊value / step⌋ * step

/-- Indicator `sma(values, n)`: `None` when `len(values) < n or n <= 0`,
else the mean of the last `n` values (`values[-n:]`). -/
def sma (values : List ℚ) (n : ℕ) : Option ℚ :=
  if values.length < n ∨ n = 0 then none
  else some ((values.drop (values.length - n)).sum / n)

/-- Indicator `ema(values, n)`: `None` when `len(values) < n or n <= 0`, else the
mean of the first `n` values smoothed forward with `k = 2/(n+1)` over
the remainder (`e = v*k + e*(1-k)`). -/
def ema (values : List ℚ) (n : ℕ) : Option ℚ :=
  if values.length < n ∨ n = 0 then none
  else
    let k : ℚ := 2 / (n + 1)
    some ((values.drop n).foldl (fun e v => v * k + e * (1 - k))
      ((values.take n).sum / n))

/-- Indicator `rsi(values, n)`: `None` when `len(values) < n+1`; otherwise the loop
`for i in range(-n, 0): d = values[i]-values[i-1]` accumulates
`gains += d` when `d >= 0` and `losses -= d` otherwise (negative index
`values[i]` is `values[len+i]`), and the result is `100` when
`losses == 0`, else `100 - 100/(1 + gains/losses)`. -/
def rsi (values : List ℚ) (n : ℕ) : Option ℚ :=
  if values.length < n + 1 then none
  else
    let L := values.length
    let gl := (List.range n).foldl
      (fun (p : ℚ × ℚ) j =>
        let d := values.getD (L - n + j) 0 - values.getD (L - n + j - 1) 0
        if 0 ≤ d then (p.1 + d, p.2) else (p.1, p.2 - d))
      (0, 0)
    if gl.2 = 0 then some 100
    else some (100 - 100 / (1 + gl.1 / gl.2))

/-- Indicator `atr(high, low, close, n)`: `None` when `len(close) < n+1`; true
ranges `tr_i = max(high[i]-low[i], |high[i]-close[i-1]|, |low[i]-close[i-1]|)`
for `i = 1 .. len(close)-1`; `None` again when fewer than `n` true
ranges; else the mean of the first `n` true ranges Wilder-smoothed with
`a = (a*(n-1)+x)/n` over the remainder. -/
def atr (high low close : List ℚ) (n : ℕ) : Option ℚ :=
  if close.length < n + 1 then none
  else
    let trs := (List.range (close.length - 1)).map (fun i =>
      max (high.getD (i + 1) 0 - low.getD (i + 1) 0)
        (max |high.getD (i + 1) 0 - close.getD i 0|
          |low.getD (i + 1) 0 - close.getD i 0|))
    if trs.length < n then none
    else some ((trs.drop n).foldl (fun a x => (a * ((n : ℚ) - 1) + x) / n)
      ((trs.take n).sum / n))

/-- The `Position` dataclass; the zero-argument constructor
`Position()` is `{}` (all defaults). -/
structure Position where
  side : String := ""
  entry : ℚ := 0
  qty : ℚ := 0
  sl : ℚ := 0
  tp : ℚ := 0
deriving DecidableEq, Repr

/-- The instrument-spec dictionary returned by `get_instrument`. -/
structure Instrument where
  qty_step : ℚ
  min_qty : ℚ
  tick_size : ℚ
  max_leverage : ℚ
deriving DecidableEq, Repr

/-- The indicator dictionary built by `Bot.compute_indicators`:
each indicator is a value or `None`; `close` is the latest close. -/
structure Snapshot where
  ema200 : Option ℚ
  sfast : Option ℚ
  sslow : Option ℚ
  rsi : Option ℚ
  atr : Option ℚ
  close : ℚ
deriving DecidableEq, Repr

/-- Python truthiness of an optional float: `None` and `0.0` are falsy. -/
def truthy (o : Option ℚ) : Bool :=
  match o with
  | none => false
  | some v => v != 0

/-- The long-entry chain
`(sfast and sslow and sfast>sslow) and (ema200 and price>ema200) and (rsi and rsi>RSI_LONG)`
is truthy exactly under these conjuncts (Python `and` returns its first
falsy operand, so the chain is truthy iff every operand is). -/
def long_sig (x : Snapshot) : Bool :=
  truthy x.sfast && truthy x.sslow
    && decide (x.sslow.getD 0 < x.sfast.getD 0)
    && truthy x.ema200 && decide (x.ema200.getD 0 < x.close)
    && truthy x.rsi && decide (RSI_LONG < x.rsi.getD 0)

/-- The short-entry chain, mirror of `long_sig` with `<` and `RSI_SHORT`. -/
def short_sig (x : Snapshot) : Bool :=
  truthy x.sfast && truthy x.sslow
    && decide (x.sfast.getD 0 < x.sslow.getD 0)
    && truthy x.ema200 && decide (x.close < x.ema200.getD 0)
    && truthy x.rsi && decide (x.rsi.getD 0 < RSI_SHORT)

/-- An order payload submitted to the exchange: `side` is
`"Buy"`/`"Sell"`, `reduceOnly` marks closes; `tp`/`sl` are attached
only when truthy (`if tp: payload["takeProfit"] = ...`). -/
structure Order where
  side : String
  qty : ℚ
  reduceOnly : Bool
  tp : Option ℚ := none
  sl : Option ℚ := none
deriving DecidableEq, Repr

namespace Bot

/-- Signal engine `Bot.decide(self, x)`: returns the action string and the position
as mutated by the trailing-stop update (`self.position.sl` is the only
field written). -/
def decide (pos : Position) (x : Snapshot) : String × Position :=
  let price := x.close
  if pos.side = "" then
    (if long_sig x then "open_long"
     else if short_sig x then "open_short"
     else "hold", pos)
  else if pos.side = "long" then
    let pos1 :=
      if truthy x.atr then
        let new_sl := max pos.sl (price - ATR_SL_MULT * x.atr.getD 0)
        if pos.sl < new_sl then { pos with sl := new_sl } else pos
      else pos
    if short_sig x then ("close_long", pos1) else ("manage", pos1)
  else
    let pos1 :=
      if truthy x.atr then
        let new_sl := min pos.sl (price + ATR_SL_MULT * x.atr.getD 0)
        if new_sl < pos.sl then { pos with sl := new_sl } else pos
      else pos
    if long_sig x then ("close_short", pos1) else ("manage", pos1)

/-- Display-precision rounding `float(f"{qty:.6f}")`, modelled as
rounding to the nearest multiple of `10⁻⁶`. -/
def fmt6 (q : ℚ) : ℚ := round (q * 1000000) / 1000000

/-- Sizing `Bot.position_sizing(self, price, atr_val)` with the freshly
polled equity passed explicitly. -/
def position_sizing (instr : Instrument) (equity price atr_val : ℚ) : ℚ :=
  let risk_dollars := equity * RISK_PCT
  let stop_dist := max (atr_val * ATR_SL_MULT) (price * (2/1000))
  let qty := risk_dollars / stop_dist
  let max_notional := equity * MAX_POS_EQUITY_FRAC * MAX_LEVERAGE
  let qty1 := min qty (max_notional / price)
  let qty2 := max (round_step qty1 instr.qty_step) instr.min_qty
  fmt6 qty2

/-- Brackets `Bot.bracket_prices(self, side, price, atr_val)`: returns
`(tp, sl)`, each `round_step`-floored to the price tick. -/
def bracket_prices (instr : Instrument) (side : String) (price atr_val : ℚ) :
    ℚ × ℚ :=
  let tick := instr.tick_size
  if side = "long" then
    (round_step (price + ATR_TP_MULT * atr_val) tick,
     round_step (price - ATR_SL_MULT * atr_val) tick)
  else
    (round_step (price - ATR_TP_MULT * atr_val) tick,
     round_step (price + ATR_SL_MULT * atr_val) tick)

/-- Outcome of `Bot.circuit_breakers`: `return True` is `pause`,
`raise SystemExit(0)` is `halt`, `return False` is `cont`. -/
inductive CbResult where
  | pause
  | halt
  | cont
deriving DecidableEq, Repr

/-- Breaker check `Bot.circuit_breakers(self)` with the freshly polled equity passed
explicitly: the daily-loss check runs first and returns (pause) before
the global-drawdown check can raise (halt). -/
def circuit_breakers (day_start_equity start_equity equity : ℚ) : CbResult :=
  if 0 < day_start_equity ∧
      (equity - day_start_equity) / day_start_equity ≤ -DAILY_LOSS_LIMIT then
    CbResult.pause
  else if 0 < start_equity ∧
      (equity - start_equity) / start_equity ≤ -GLOBAL_DD_LIMIT then
    CbResult.halt
  else CbResult.cont

/-- One post-breaker cycle of `Bot.loop` given the fetched snapshot and
equity: runs `decide`, then the `open_long`/`open_short`/`close_*`
action branches, then the client-side stop-loss check; returns the
resulting position and the orders submitted, in submission order. -/
def cycle (instr : Instrument) (equity : ℚ) (pos : Position) (x : Snapshot) :
    Position × List Order :=
  let ad := decide pos x
  let action := ad.1
  let pos1 := ad.2
  let price := x.close
  let step2 : Position × List Order :=
    if action = "open_long" ∧ truthy x.atr then
      let qty := position_sizing instr equity price (x.atr.getD 0)
      let brackets := bracket_prices instr "long" price (x.atr.getD 0)
      (⟨"long", price, qty, brackets.2, brackets.1⟩,
       [{ side := "Buy", qty := qty, reduceOnly := false,
          tp := if brackets.1 != 0 then some brackets.1 else none,
          sl := if brackets.2 != 0 then some brackets.2 else none }])
    else if action = "open_short" ∧ truthy x.atr then
      let qty := position_sizing instr equity price (x.atr.getD 0)
      let brackets := bracket_prices instr "short" price (x.atr.getD 0)
      (⟨"short", price, qty, brackets.2, brackets.1⟩,
       [{ side := "Sell", qty := qty, reduceOnly := false,
          tp := if brackets.1 != 0 then some brackets.1 else none,
          sl := if brackets.2 != 0 then some brackets.2 else none }])
    else if (action = "close_long" ∨ action = "close_short") ∧ pos1.side ≠ "" then
      (({} : Position),
       [{ side := if pos1.side = "long" then "Sell" else "Buy",
          qty := pos1.qty, reduceOnly := true }])
    else (pos1, [])
  let pos2 := step2.1
  let orders := step2.2
  if pos2.side ≠ "" then
    if pos2.side = "long" ∧ price ≤ pos2.sl then
      (({} : Position),
       orders ++ [{ side := "Sell", qty := pos2.qty, reduceOnly := true }])
    else if pos2.side = "short" ∧ pos2.sl ≤ price then
      (({} : Position),
       orders ++ [{ side := "Buy", qty := pos2.qty, reduceOnly := true }])
    else (pos2, orders)
  else (pos2, orders)

end Bot

/-- Iterated signal-engine evaluation: the position after feeding a
sequence of snapshots through `Bot.decide`, keeping the (possibly
trailing-stop-updated) position each time. -/
def decideSeq (pos : Position) (xs : List Snapshot) : Position :=
  xs.foldl (fun p x => (Bot.decide p x).2) pos

/-- The Position data-model invariant: a flat position (empty side
string) carries zero quantity, stop-loss and take-profit. -/
def PosInv (p : Position) : Prop :=
  p.side = "" → p.qty = 0 ∧ p.sl = 0 ∧ p.tp = 0

/-- The last `n` consecutive price differences, read off the trailing
`n+1`-point window, stated the way the specification describes the RSI
input (newer value minus older value). -/
def lastDiffs (values : List ℚ) (n : ℕ) : List ℚ :=
  let w := values.drop (values.length - (n + 1))
  List.zipWith (fun a b => a - b) (w.drop 1) w

/-- Specification-level gain sum: total of the positive differences
among the last `n` (a zero difference counts as a gain of zero). -/
def gainSum (values : List ℚ) (n : ℕ) : ℚ :=
  ((lastDiffs values n).map (fun d => if 0 ≤ d then d else 0)).sum

/-- Specification-level loss sum: total of the absolute values of the
negative differences among the last `n`. -/
def lossSum (values : List ℚ) (n : ℕ) : ℚ :=
  ((lastDiffs values n).map (fun d => if 0 ≤ d then 0 else -d)).sum

theorem round_step_le (v step : ℚ) (h : 0 < step) : round_step v step ≤ v := by
  calc (⌊v / step⌋ : ℚ) * step ≤ (v / step) * step :=
        mul_le_mul_of_nonneg_right (Int.floor_le _) h.le
    _ = v := div_mul_cancel₀ v h.ne'

theorem lt_round_step_add (v step : ℚ) (h : 0 < step) :
    v < round_step v step + step := by
  have h1 : v / step < ⌊v / step⌋ + 1 := Int.lt_floor_add_one _
  have h2 : (v / step) * step < ((⌊v / step⌋ : ℚ) + 1) * step :=
    mul_lt_mul_of_pos_right h1 h
  rw [div_mul_cancel₀ v h.ne'] at h2
  calc v < ((⌊v / step⌋ : ℚ) + 1) * step := h2
    _ = round_step v step + step := by rw [round_step]; ring

theorem round_step_is_multiple (v step : ℚ) :
    ∃ m : ℤ, round_step v step = m * step := ⟨⌊v / step⌋, rfl⟩

/-- C1, counterexample: with both baselines 100 and equity 90, the
daily-loss condition and the global-drawdown condition both hold, yet
`circuit_breakers` signals Pause, not Halt. -/
theorem circuit_breakers_simultaneous_counterexample :
    ((90 : ℚ) - 100) / 100 ≤ -DAILY_LOSS_LIMIT ∧
    ((90 : ℚ) - 100) / 100 ≤ -GLOBAL_DD_LIMIT ∧
    Bot.circuit_breakers 100 100 90 = Bot.CbResult.pause ∧
    Bot.circuit_breakers 100 100 90 ≠ Bot.CbResult.halt := by
  have hp : Bot.circuit_breakers 100 100 90 = Bot.CbResult.pause := by
    unfold Bot.circuit_breakers
    rw [if_pos]
    norm_num [DAILY_LOSS_LIMIT]
  refine ⟨by norm_num [DAILY_LOSS_LIMIT], by norm_num [GLOBAL_DD_LIMIT], hp, ?_⟩
  rw [hp]
  exact fun hc => nomatch hc

/-- C1, amended: when the daily-loss Pause condition and the
global-drawdown Halt condition hold simultaneously (with positive
baselines), the circuit-breaker evaluation signals Pause and not Halt:
the Pause check is evaluated first and takes precedence. -/
theorem circuit_breakers_pause_precedence
    (day_start start equity : ℚ)
    (hday : 0 < day_start)
    (hpause : (equity - day_start) / day_start ≤ -DAILY_LOSS_LIMIT)
    (hstart : 0 < start)
    (hhalt : (equity - start) / start ≤ -GLOBAL_DD_LIMIT) :
    Bot.circuit_breakers day_start start equity = Bot.CbResult.pause := by
  unfold Bot.circuit_breakers
  rw [if_pos ⟨hday, hpause⟩]

theorem circuit_breakers_pause_precedence_witness :
    Bot.circuit_breakers 100 100 90 = Bot.CbResult.pause :=
  circuit_breakers_pause_precedence 100 100 90 (by norm_num)
    (by norm_num [DAILY_LOSS_LIMIT]) (by norm_num)
    (by norm_num [GLOBAL_DD_LIMIT])

/-- C8: for either side, the returned stop is the tick-floor of
`price ∓ stopMultiplier·atr` and the target the tick-floor of
`price ± targetMultiplier·atr`: each level is a multiple of the tick,
at most the raw level, and within one tick below it — the same
downward rounding direction for both levels on both sides. -/
theorem bracket_prices_floor (instr : Instrument) (price atr_val : ℚ)
    (ht : 0 < instr.tick_size) :
    ((Bot.bracket_prices instr "long" price atr_val).2 ≤ price - ATR_SL_MULT * atr_val ∧
      price - ATR_SL_MULT * atr_val <
        (Bot.bracket_prices instr "long" price atr_val).2 + instr.tick_size ∧
      ∃ m : ℤ, (Bot.bracket_prices instr "long" price atr_val).2 = m * instr.tick_size) ∧
    ((Bot.bracket_prices instr "long" price atr_val).1 ≤ price + ATR_TP_MULT * atr_val ∧
      price + ATR_TP_MULT * atr_val <
        (Bot.bracket_prices instr "long" price atr_val).1 + instr.tick_size ∧
      ∃ m : ℤ, (Bot.bracket_prices instr "long" price atr_val).1 = m * instr.tick_size) ∧
    ((Bot.bracket_prices instr "short" price atr_val).2 ≤ price + ATR_SL_MULT * atr_val ∧
      price + ATR_SL_MULT * atr_val <
        (Bot.bracket_prices instr "short" price atr_val).2 + instr.tick_size ∧
      ∃ m : ℤ, (Bot.bracket_prices instr "short" price atr_val).2 = m * instr.tick_size) ∧
    ((Bot.bracket_prices instr "short" price atr_val).1 ≤ price - ATR_TP_MULT * atr_val ∧
      price - ATR_TP_MULT * atr_val <
        (Bot.bracket_prices instr "short" price atr_val).1 + instr.tick_size ∧
      ∃ m : ℤ, (Bot.bracket_prices instr "short" price atr_val).1 = m * instr.tick_size) := by
  have hlong : Bot.bracket_prices instr "long" price atr_val =
      (round_step (price + ATR_TP_MULT * atr_val) instr.tick_size,
       round_step (price - ATR_SL_MULT * atr_val) instr.tick_size) := by
    unfold Bot.bracket_prices
    rw [if_pos rfl]
  have hshort : Bot.bracket_prices instr "short" price atr_val =
      (round_step (price - ATR_TP_MULT * atr_val) instr.tick_size,
       round_step (price + ATR_SL_MULT * atr_val) instr.tick_size) := by
    unfold Bot.bracket_prices
    rw [if_neg (by decide)]
  rw [hlong, hshort]
  exact ⟨⟨round_step_le _ _ ht, lt_round_step_add _ _ ht, round_step_is_multiple _ _⟩,
    ⟨round_step_le _ _ ht, lt_round_step_add _ _ ht, round_step_is_multiple _ _⟩,
    ⟨round_step_le _ _ ht, lt_round_step_add _ _ ht, round_step_is_multiple _ _⟩,
    ⟨round_step_le _ _ ht, lt_round_step_add _ _ ht, round_step_is_multiple _ _⟩⟩

theorem bracket_prices_floor_witness :
    (((Bot.bracket_prices ⟨1, 1, 1, 5⟩ "long" 100 2).2 ≤ 100 - ATR_SL_MULT * 2 ∧
      100 - ATR_SL_MULT * 2 <
        (Bot.bracket_prices ⟨1, 1, 1, 5⟩ "long" 100 2).2 + (1 : ℚ) ∧
      ∃ m : ℤ, (Bot.bracket_prices ⟨1, 1, 1, 5⟩ "long" 100 2).2 = m * (1 : ℚ)) ∧
    ((Bot.bracket_prices ⟨1, 1, 1, 5⟩ "long" 100 2).1 ≤ 100 + ATR_TP_MULT * 2 ∧
      100 + ATR_TP_MULT * 2 <
        (Bot.bracket_prices ⟨1, 1, 1, 5⟩ "long" 100 2).1 + (1 : ℚ) ∧
      ∃ m : ℤ, (Bot.bracket_prices ⟨1, 1, 1, 5⟩ "long" 100 2).1 = m * (1 : ℚ)) ∧
    ((Bot.bracket_prices ⟨1, 1, 1, 5⟩ "short" 100 2).2 ≤ 100 + ATR_SL_MULT * 2 ∧
      100 + ATR_SL_MULT * 2 <
        (Bot.bracket_prices ⟨1, 1, 1, 5⟩ "short" 100 2).2 + (1 : ℚ) ∧
      ∃ m : ℤ, (Bot.bracket_prices ⟨1, 1, 1, 5⟩ "short" 100 2).2 = m * (1 : ℚ)) ∧
    ((Bot.bracket_prices ⟨1, 1, 1, 5⟩ "short" 100 2).1 ≤ 100 - ATR_TP_MULT * 2 ∧
      100 - ATR_TP_MULT * 2 <
        (Bot.bracket_prices ⟨1, 1, 1, 5⟩ "short" 100 2).1 + (1 : ℚ) ∧
      ∃ m : ℤ, (Bot.bracket_prices ⟨1, 1, 1, 5⟩ "short" 100 2).1 = m * (1 : ℚ))) :=
  bracket_prices_floor ⟨1, 1, 1, 5⟩ 100 2 (by norm_num)

/-- C6: a series shorter than the required window (`N` for the simple
and exponential averages, `N+1` for RSI, `N+1` closes for ATR) makes
the indicator return `none`, and a sufficient history makes it return
a number (for positive `N` in the averaged indicators, whose `n <= 0`
guard also yields `none`). -/
theorem indicator_availability (n : ℕ) (values high low close : List ℚ) :
    (0 < n → (sma values n = none ↔ values.length < n)) ∧
    (0 < n → (ema values n = none ↔ values.length < n)) ∧
    (rsi values n = none ↔ values.length < n + 1) ∧
    (atr high low close n = none ↔ close.length < n + 1) := by
  refine ⟨?_, ?_, ?_, ?_⟩
  · intro hn
    rw [sma]
    by_cases h : values.length < n ∨ n = 0
    · rw [if_pos h]; simp; omega
    · rw [if_neg h]; simp; omega
  · intro hn
    rw [ema]
    by_cases h : values.length < n ∨ n = 0
    · rw [if_pos h]; simp; omega
    · rw [if_neg h]; simp; omega
  · rw [rsi]
    by_cases h : values.length < n + 1
    · rw [if_pos h]; simp [h]
    · rw [if_neg h]
      constructor
      · intro hc
        exfalso
        revert hc
        dsimp only
        split <;> simp
      · intro hc; exact absurd hc h
  · rw [atr]
    by_cases h : close.length < n + 1
    · rw [if_pos h]; simp [h]
    · rw [if_neg h]
      constructor
      · intro hc
        exfalso
        rw [if_neg (by simp; omega)] at hc
        exact Option.some_ne_none _ hc
      · intro hc; exact absurd hc h

theorem indicator_availability_witness :
    ((sma [(1 : ℚ)] 2 = none ↔ [(1 : ℚ)].length < 2) ∧
      (ema [(1 : ℚ)] 2 = none ↔ [(1 : ℚ)].length < 2)) ∧
    ((rsi [(1 : ℚ)] 2 = none ↔ [(1 : ℚ)].length < 3) ∧
      (atr [(3 : ℚ)] [1] [2] 2 = none ↔ [(2 : ℚ)].length < 3)) :=
  ⟨⟨(indicator_availability 2 [1] [3] [1] [2]).1 (by norm_num),
    (indicator_availability 2 [1] [3] [1] [2]).2.1 (by norm_num)⟩,
   ⟨(indicator_availability 2 [1] [3] [1] [2]).2.2.1,
    (indicator_availability 2 [1] [3] [1] [2]).2.2.2⟩⟩

theorem decide_side_eq (pos : Position) (x : Snapshot) :
    (Bot.decide pos x).2.side = pos.side := by
  unfold Bot.decide
  dsimp only
  split_ifs <;> rfl

theorem decide_qty_eq (pos : Position) (x : Snapshot) :
    (Bot.decide pos x).2.qty = pos.qty := by
  unfold Bot.decide
  dsimp only
  split_ifs <;> rfl

theorem decide_tp_eq (pos : Position) (x : Snapshot) :
    (Bot.decide pos x).2.tp = pos.tp := by
  unfold Bot.decide
  dsimp only
  split_ifs <;> rfl

theorem decide_of_flat (pos : Position) (x : Snapshot) (h : pos.side = "") :
    (Bot.decide pos x).2 = pos := by
  unfold Bot.decide
  rw [if_pos h]

theorem decide_sl_ge_of_long (pos : Position) (x : Snapshot)
    (h : pos.side = "long") :
    pos.sl ≤ (Bot.decide pos x).2.sl := by
  unfold Bot.decide
  rw [if_neg (by rw [h]; decide), if_pos h]
  dsimp only
  split_ifs with h1 h2 h3 <;> simp [le_max_left, le_refl]

theorem decide_sl_le_of_short (pos : Position) (x : Snapshot)
    (h1 : pos.side ≠ "") (h2 : pos.side ≠ "long") :
    (Bot.decide pos x).2.sl ≤ pos.sl := by
  unfold Bot.decide
  rw [if_neg h1, if_neg h2]
  dsimp only
  split_ifs with h3 h4 h5 <;> simp [min_le_left, le_refl]

theorem decide_action_of_long (pos : Position) (x : Snapshot)
    (h : pos.side = "long") :
    (Bot.decide pos x).1 = "close_long" ∨ (Bot.decide pos x).1 = "manage" := by
  unfold Bot.decide
  rw [if_neg (by rw [h]; decide), if_pos h]
  dsimp only
  split_ifs <;> simp

theorem decide_action_of_short (pos : Position) (x : Snapshot)
    (h1 : pos.side ≠ "") (h2 : pos.side ≠ "long") :
    (Bot.decide pos x).1 = "close_short" ∨ (Bot.decide pos x).1 = "manage" := by
  unfold Bot.decide
  rw [if_neg h1, if_neg h2]
  dsimp only
  split_ifs <;> simp

theorem decide_flat_of_open (pos : Position) (x : Snapshot)
    (h : (Bot.decide pos x).1 = "open_long" ∨ (Bot.decide pos x).1 = "open_short") :
    pos.side = "" := by
  by_contra hside
  by_cases hlong : pos.side = "long"
  · rcases decide_action_of_long pos x hlong with h1 | h1 <;>
      rcases h with h2 | h2 <;> rw [h1] at h2 <;> exact absurd h2 (by decide)
  · rcases decide_action_of_short pos x hside hlong with h1 | h1 <;>
      rcases h with h2 | h2 <;> rw [h1] at h2 <;> exact absurd h2 (by decide)

/-- C5: across any sequence of consecutive signal-engine evaluations,
the stop-loss of a long position never decreases and the stop-loss of
a short position never increases. -/
theorem trailing_stop_monotone (xs : List Snapshot) (pos : Position) :
    (pos.side = "long" → pos.sl ≤ (decideSeq pos xs).sl) ∧
    (pos.side = "short" → (decideSeq pos xs).sl ≤ pos.sl) := by
  induction xs generalizing pos with
  | nil => exact ⟨fun _ => le_refl _, fun _ => le_refl _⟩
  | cons x xs ih =>
    constructor
    · intro h
      have h1 : pos.sl ≤ (Bot.decide pos x).2.sl := decide_sl_ge_of_long pos x h
      have h2 : (Bot.decide pos x).2.side = "long" := by rw [decide_side_eq, h]
      exact h1.trans ((ih (Bot.decide pos x).2).1 h2)
    · intro h
      have h1 : (Bot.decide pos x).2.sl ≤ pos.sl :=
        decide_sl_le_of_short pos x (by rw [h]; decide) (by rw [h]; decide)
      have h2 : (Bot.decide pos x).2.side = "short" := by rw [decide_side_eq, h]
      exact ((ih (Bot.decide pos x).2).2 h2).trans h1

theorem trailing_stop_monotone_witness :
    (97 : ℚ) ≤ (decideSeq ⟨"long", 100, 1, 97, 105⟩
      [⟨none, none, none, none, some 2, 110⟩]).sl :=
  (trailing_stop_monotone [⟨none, none, none, none, some 2, 110⟩]
    ⟨"long", 100, 1, 97, 105⟩).1 rfl

theorem long_sig_iff (x : Snapshot) (ev sf ss rv : ℚ)
    (he : x.ema200 = some ev) (hf : x.sfast = some sf)
    (hs : x.sslow = some ss) (hr : x.rsi = some rv) :
    long_sig x = true ↔
      ss < sf ∧ ev < x.close ∧ RSI_LONG < rv ∧
        sf ≠ 0 ∧ ss ≠ 0 ∧ ev ≠ 0 ∧ rv ≠ 0 := by
  simp only [long_sig, truthy, he, hf, hs, hr, Option.getD_some,
    Bool.and_eq_true, decide_eq_true_eq, bne_iff_ne, ne_eq]
  tauto

theorem short_sig_iff (x : Snapshot) (ev sf ss rv : ℚ)
    (he : x.ema200 = some ev) (hf : x.sfast = some sf)
    (hs : x.sslow = some ss) (hr : x.rsi = some rv) :
    short_sig x = true ↔
      sf < ss ∧ x.close < ev ∧ rv < RSI_SHORT ∧
        sf ≠ 0 ∧ ss ≠ 0 ∧ ev ≠ 0 ∧ rv ≠ 0 := by
  simp only [short_sig, truthy, he, hf, hs, hr, Option.getD_some,
    Bool.and_eq_true, decide_eq_true_eq, bne_iff_ne, ne_eq]
  tauto

/-- C3, counterexample: a flat position and a snapshot with every
indicator available, `smaFast = 1 < 2 = smaSlow`,
`close = 50 < 100 = emaTrend` and `rsi = 0 < 45 = shortThreshold`
satisfies the claimed short-entry condition, yet the engine emits
`hold` (the zero RSI value is falsy in the Python conjunction). -/
theorem decide_flat_signals_counterexample :
    (1 : ℚ) < 2 ∧ (50 : ℚ) < 100 ∧ (0 : ℚ) < RSI_SHORT ∧
    (Bot.decide ({} : Position)
      ⟨some 100, some 1, some 2, some 0, some 1, 50⟩).1 = "hold" ∧
    (Bot.decide ({} : Position)
      ⟨some 100, some 1, some 2, some 0, some 1, 50⟩).1 ≠ "open_short" :=
  ⟨by norm_num, by norm_num, by norm_num [RSI_SHORT], rfl, by decide⟩

/-- C3, amended: for a flat position and a snapshot with all four
signal indicators available, the engine emits `openLong` exactly when
`smaFast > smaSlow ∧ close > emaTrend ∧ rsi > longThreshold` and all
four indicator values are nonzero, emits `openShort` exactly when
`smaFast < smaSlow ∧ close < emaTrend ∧ rsi < shortThreshold` and all
four are nonzero, and emits `hold` otherwise: an unavailable — or
zero-valued, hence falsy — indicator makes any condition depending on
it false. -/
theorem decide_flat_signals (pos : Position) (x : Snapshot) (ev sf ss rv : ℚ)
    (hflat : pos.side = "")
    (he : x.ema200 = some ev) (hf : x.sfast = some sf)
    (hs : x.sslow = some ss) (hr : x.rsi = some rv) :
    ((Bot.decide pos x).1 = "open_long" ↔
      (ss < sf ∧ ev < x.close ∧ RSI_LONG < rv ∧
        sf ≠ 0 ∧ ss ≠ 0 ∧ ev ≠ 0 ∧ rv ≠ 0)) ∧
    ((Bot.decide pos x).1 = "open_short" ↔
      (sf < ss ∧ x.close < ev ∧ rv < RSI_SHORT ∧
        sf ≠ 0 ∧ ss ≠ 0 ∧ ev ≠ 0 ∧ rv ≠ 0)) ∧
    ((Bot.decide pos x).1 = "hold" ↔
      (¬(ss < sf ∧ ev < x.close ∧ RSI_LONG < rv ∧
          sf ≠ 0 ∧ ss ≠ 0 ∧ ev ≠ 0 ∧ rv ≠ 0) ∧
        ¬(sf < ss ∧ x.close < ev ∧ rv < RSI_SHORT ∧
          sf ≠ 0 ∧ ss ≠ 0 ∧ ev ≠ 0 ∧ rv ≠ 0))) := by
  have hl := long_sig_iff x ev sf ss rv he hf hs hr
  have hsh := short_sig_iff x ev sf ss rv he hf hs hr
  have hd : Bot.decide pos x =
      (if long_sig x then "open_long"
       else if short_sig x then "open_short"
       else "hold", pos) := by
    unfold Bot.decide
    rw [if_pos hflat]
  rw [hd]
  by_cases hL : long_sig x <;> by_cases hS : short_sig x
  · exact absurd ((hl.mp hL).1.trans (hsh.mp hS).1) (lt_irrefl _)
  · have hPl := hl.mp hL
    have hnPs : ¬(sf < ss ∧ x.close < ev ∧ rv < RSI_SHORT ∧
        sf ≠ 0 ∧ ss ≠ 0 ∧ ev ≠ 0 ∧ rv ≠ 0) := fun hp => hS (hsh.mpr hp)
    rw [if_pos hL]
    exact ⟨iff_of_true rfl hPl, iff_of_false (by simp) hnPs,
      iff_of_false (by simp) (fun hc => hc.1 hPl)⟩
  · have hPs := hsh.mp hS
    have hnPl : ¬(ss < sf ∧ ev < x.close ∧ RSI_LONG < rv ∧
        sf ≠ 0 ∧ ss ≠ 0 ∧ ev ≠ 0 ∧ rv ≠ 0) := fun hp => hL (hl.mpr hp)
    rw [if_neg hL, if_pos hS]
    exact ⟨iff_of_false (by simp) hnPl, iff_of_true rfl hPs,
      iff_of_false (by simp) (fun hc => hc.2 hPs)⟩
  · have hnPl : ¬(ss < sf ∧ ev < x.close ∧ RSI_LONG < rv ∧
        sf ≠ 0 ∧ ss ≠ 0 ∧ ev ≠ 0 ∧ rv ≠ 0) := fun hp => hL (hl.mpr hp)
    have hnPs : ¬(sf < ss ∧ x.close < ev ∧ rv < RSI_SHORT ∧
        sf ≠ 0 ∧ ss ≠ 0 ∧ ev ≠ 0 ∧ rv ≠ 0) := fun hp => hS (hsh.mpr hp)
    rw [if_neg hL, if_neg hS]
    exact ⟨iff_of_false (by simp) hnPl, iff_of_false (by simp) hnPs,
      iff_of_true rfl ⟨hnPl, hnPs⟩⟩

theorem decide_flat_signals_witness :
    (Bot.decide ({} : Position) ⟨some 10, some 2, some 1, some 60, none, 50⟩).1
      = "open_long" :=
  (decide_flat_signals ({} : Position)
    ⟨some 10, some 2, some 1, some 60, none, 50⟩ 10 2 1 60
    rfl rfl rfl rfl rfl).1.mpr
    ⟨by norm_num, by norm_num, by norm_num [RSI_LONG],
      by norm_num, by norm_num, by norm_num, by norm_num⟩

theorem posInv_default : PosInv ({} : Position) :=
  fun _ => ⟨rfl, rfl, rfl⟩

theorem decide_posInv (pos : Position) (x : Snapshot) (h : PosInv pos) :
    PosInv (Bot.decide pos x).2 := by
  by_cases hs : pos.side = ""
  · rw [decide_of_flat pos x hs]; exact h
  · intro hc
    rw [decide_side_eq] at hc
    exact absurd hc hs

/-- C9: one signal-engine evaluation and one trading-loop cycle each
preserve the invariant that a flat position carries zero quantity,
stop-loss and take-profit (the state holds a single `Position`, so at
most one position is open at any time). -/
theorem position_invariant_preserved (instr : Instrument) (equity : ℚ)
    (pos : Position) (x : Snapshot) (h : PosInv pos) :
    PosInv (Bot.decide pos x).2 ∧ PosInv (Bot.cycle instr equity pos x).1 := by
  refine ⟨decide_posInv pos x h, ?_⟩
  unfold Bot.cycle
  dsimp only
  split_ifs <;>
    first
      | exact posInv_default
      | exact decide_posInv pos x h
      | exact fun hc => absurd hc (by simp)

theorem position_invariant_preserved_witness :
    PosInv (Bot.decide ({} : Position)
      ⟨none, none, none, none, none, 50⟩).2 ∧
    PosInv (Bot.cycle ⟨1, 1, 1, 5⟩ 1000 ({} : Position)
      ⟨none, none, none, none, none, 50⟩).1 :=
  position_invariant_preserved ⟨1, 1, 1, 5⟩ 1000 ({} : Position)
    ⟨none, none, none, none, none, 50⟩ (fun _ => ⟨rfl, rfl, rfl⟩)

/-- C10: when the signal engine emits an open decision but ATR is
unavailable, the cycle submits no order and leaves the (flat) position
unchanged; and any non-reduce-only (opening) order ever submitted by a
cycle implies an available ATR value. -/
theorem open_requires_atr (instr : Instrument) (equity : ℚ)
    (pos : Position) (x : Snapshot) :
    (x.atr = none →
      ((Bot.decide pos x).1 = "open_long" ∨ (Bot.decide pos x).1 = "open_short") →
      (Bot.cycle instr equity pos x).2 = [] ∧
        (Bot.cycle instr equity pos x).1 = pos) ∧
    (∀ o ∈ (Bot.cycle instr equity pos x).2, o.reduceOnly = false →
      x.atr ≠ none) := by
  constructor
  · intro hatr hopen
    have hflat : pos.side = "" := decide_flat_of_open pos x hopen
    have hpos : (Bot.decide pos x).2 = pos := decide_of_flat pos x hflat
    have htr : truthy x.atr = false := by rw [hatr]; rfl
    unfold Bot.cycle
    dsimp only
    rw [hpos]
    rcases hopen with ho | ho <;>
      rw [ho] <;>
      simp [htr, hflat]
  · intro o ho hro hatr
    have htr : truthy x.atr = false := by rw [hatr]; rfl
    have h1 : ¬((Bot.decide pos x).1 = "open_long" ∧ truthy x.atr = true) := by
      rw [htr]; rintro ⟨-, hc⟩; exact Bool.false_ne_true hc
    have h2 : ¬((Bot.decide pos x).1 = "open_short" ∧ truthy x.atr = true) := by
      rw [htr]; rintro ⟨-, hc⟩; exact Bool.false_ne_true hc
    revert ho
    unfold Bot.cycle
    dsimp only
    rw [if_neg h1, if_neg h2]
    split_ifs <;> simp_all <;> (rintro rfl; simp at hro)

theorem open_requires_atr_witness :
    (Bot.cycle ⟨1, 1, 1, 5⟩ 1000 ({} : Position)
      ⟨some 10, some 2, some 1, some 60, none, 50⟩).2 = [] ∧
    (Bot.cycle ⟨1, 1, 1, 5⟩ 1000 ({} : Position)
      ⟨some 10, some 2, some 1, some 60, none, 50⟩).1 = ({} : Position) :=
  (open_requires_atr ⟨1, 1, 1, 5⟩ 1000 ({} : Position)
    ⟨some 10, some 2, some 1, some 60, none, 50⟩).1 rfl (Or.inl rfl)

/-- C4: whenever a position is open and the latest close has crossed
its tracked stop (long and price at or below the stop, or short and
price at or above it), the cycle submits a reduce-only order for the
position's quantity and clears the position to flat, whatever decision
the signal engine emitted. -/
theorem stop_breach_closes (instr : Instrument) (equity : ℚ)
    (pos : Position) (x : Snapshot)
    (h : (pos.side = "long" ∧ x.close ≤ pos.sl) ∨
      (pos.side = "short" ∧ pos.sl ≤ x.close)) :
    (Bot.cycle instr equity pos x).1 = ({} : Position) ∧
    ∃ o ∈ (Bot.cycle instr equity pos x).2,
      o.reduceOnly = true ∧ o.qty = pos.qty := by
  have hq : (Bot.decide pos x).2.qty = pos.qty := decide_qty_eq pos x
  have hside : (Bot.decide pos x).2.side = pos.side := decide_side_eq pos x
  rcases h with ⟨hs, hx⟩ | ⟨hs, hx⟩
  · have haction := decide_action_of_long pos x hs
    have hsl : pos.sl ≤ (Bot.decide pos x).2.sl := decide_sl_ge_of_long pos x hs
    have hne : (Bot.decide pos x).2.side ≠ "" := by
      rw [hside, hs]; exact fun hc => absurd hc (by decide)
    have h1 : ¬((Bot.decide pos x).1 = "open_long" ∧ truthy x.atr = true) := by
      rintro ⟨hc, -⟩
      rcases haction with ha | ha <;> rw [ha] at hc <;> exact absurd hc (by decide)
    have h2 : ¬((Bot.decide pos x).1 = "open_short" ∧ truthy x.atr = true) := by
      rintro ⟨hc, -⟩
      rcases haction with ha | ha <;> rw [ha] at hc <;> exact absurd hc (by decide)
    unfold Bot.cycle
    dsimp only
    rw [if_neg h1, if_neg h2]
    rcases haction with ha | ha
    · have hc3 : ((Bot.decide pos x).1 = "close_long" ∨
          (Bot.decide pos x).1 = "close_short") ∧
          (Bot.decide pos x).2.side ≠ "" := ⟨Or.inl ha, hne⟩
      rw [if_pos hc3]
      dsimp only
      rw [if_neg (fun hc => hc rfl)]
      simp [hq]
    · have hc3 : ¬(((Bot.decide pos x).1 = "close_long" ∨
          (Bot.decide pos x).1 = "close_short") ∧
          (Bot.decide pos x).2.side ≠ "") := by
        rw [ha]; rintro ⟨hc | hc, -⟩ <;> exact absurd hc (by decide)
      rw [if_neg hc3]
      dsimp only
      rw [if_pos hne]
      rw [if_pos ⟨by rw [hside, hs], hx.trans hsl⟩]
      simp [hq]
  · have haction := decide_action_of_short pos x
      (by rw [hs]; exact fun hc => absurd hc (by decide))
      (by rw [hs]; exact fun hc => absurd hc (by decide))
    have hsl : (Bot.decide pos x).2.sl ≤ pos.sl :=
      decide_sl_le_of_short pos x
        (by rw [hs]; exact fun hc => absurd hc (by decide))
        (by rw [hs]; exact fun hc => absurd hc (by decide))
    have hne : (Bot.decide pos x).2.side ≠ "" := by
      rw [hside, hs]; exact fun hc => absurd hc (by decide)
    have h1 : ¬((Bot.decide pos x).1 = "open_long" ∧ truthy x.atr = true) := by
      rintro ⟨hc, -⟩
      rcases haction with ha | ha <;> rw [ha] at hc <;> exact absurd hc (by decide)
    have h2 : ¬((Bot.decide pos x).1 = "open_short" ∧ truthy x.atr = true) := by
      rintro ⟨hc, -⟩
      rcases haction with ha | ha <;> rw [ha] at hc <;> exact absurd hc (by decide)
    unfold Bot.cycle
    dsimp only
    rw [if_neg h1, if_neg h2]
    rcases haction with ha | ha
    · have hc3 : ((Bot.decide pos x).1 = "close_long" ∨
          (Bot.decide pos x).1 = "close_short") ∧
          (Bot.decide pos x).2.side ≠ "" := ⟨Or.inr ha, hne⟩
      rw [if_pos hc3]
      dsimp only
      rw [if_neg (fun hc => hc rfl)]
      simp [hq]
    · have hc3 : ¬(((Bot.decide pos x).1 = "close_long" ∨
          (Bot.decide pos x).1 = "close_short") ∧
          (Bot.decide pos x).2.side ≠ "") := by
        rw [ha]; rintro ⟨hc | hc, -⟩ <;> exact absurd hc (by decide)
      rw [if_neg hc3]
      dsimp only
      rw [if_pos hne]
      rw [if_neg (by rw [hside, hs]; rintro ⟨hc, -⟩; exact absurd hc (by decide))]
      rw [if_pos ⟨by rw [hside, hs], hsl.trans hx⟩]
      simp [hq]

theorem stop_breach_closes_witness :
    (Bot.cycle ⟨1, 1, 1, 5⟩ 1000 ⟨"long", 100, 2, 97, 105⟩
      ⟨none, none, none, none, none, 193/2⟩).1 = ({} : Position) ∧
    ∃ o ∈ (Bot.cycle ⟨1, 1, 1, 5⟩ 1000 ⟨"long", 100, 2, 97, 105⟩
      ⟨none, none, none, none, none, 193/2⟩).2,
      o.reduceOnly = true ∧ o.qty = 2 :=
  stop_breach_closes ⟨1, 1, 1, 5⟩ 1000 ⟨"long", 100, 2, 97, 105⟩
    ⟨none, none, none, none, none, 193/2⟩ (Or.inl ⟨rfl, by norm_num⟩)

theorem fmt6_le (q : ℚ) : Bot.fmt6 q ≤ q + 1/2000000 := by
  have h := abs_sub_round (q * 1000000)
  have h1 : (round (q * 1000000) : ℚ) ≤ q * 1000000 + 1/2 := by
    have := abs_le.mp h
    linarith [this.2]
  rw [Bot.fmt6, div_le_iff₀ (by norm_num : (0:ℚ) < 1000000)]
  linarith

/-- C2, counterexample: with equity 100, price 100, atr 1 and an
instrument whose quantity step is 1 and minimum quantity 10, the sizing
result is forced up to the minimum quantity and its notional (1000)
exceeds `equity · maxPositionEquityFraction · maxLeverage` (100) by far
more than one quantity-step of rounding (here one step is 100 of
notional). -/
theorem position_sizing_cap_counterexample :
    (0:ℚ) < 100 ∧ (0:ℚ) < 1 ∧
    100 * MAX_POS_EQUITY_FRAC * MAX_LEVERAGE + 1 * 100 <
      Bot.position_sizing ⟨1, 10, 1/100, 10⟩ 100 100 1 * 100 := by
  refine ⟨by norm_num, by norm_num, ?_⟩
  have hps : Bot.position_sizing ⟨1, 10, 1/100, 10⟩ 100 100 1 = 10 := by
    have h1 : max ((1:ℚ) * ATR_SL_MULT) (100 * (2/1000)) = 3/2 := by
      rw [max_eq_left (by norm_num [ATR_SL_MULT])]; norm_num [ATR_SL_MULT]
    have h2 : min ((100 * RISK_PCT) / ((3:ℚ)/2))
        ((100 * MAX_POS_EQUITY_FRAC * MAX_LEVERAGE) / 100) = 1/5 := by
      rw [min_eq_left] <;> norm_num [RISK_PCT, MAX_POS_EQUITY_FRAC, MAX_LEVERAGE]
    have h3 : round_step (1/5 : ℚ) 1 = 0 := by
      norm_num [round_step]
    have h4 : max (0:ℚ) 10 = 10 := by norm_num
    have h5 : Bot.fmt6 10 = 10 := by norm_num [Bot.fmt6, round_eq]
    unfold Bot.position_sizing
    dsimp only
    rw [h1, h2, h3, h4, h5]
  rw [hps]
  norm_num [MAX_POS_EQUITY_FRAC, MAX_LEVERAGE]

/-- C2, amended: the cap holds whenever the instrument's minimum
quantity itself respects the cap (`minQuantity · price ≤ equity ·
maxPositionEquityFraction · maxLeverage`) and the quantity step is at
least the display precision `10⁻⁶`: then the sizing result satisfies
`quantity · price ≤ equity · maxPositionEquityFraction · maxLeverage`
within one quantity-step of rounding.  (Without the minimum-quantity
hypothesis the `max(…, minQuantity)` floor can exceed the cap by an
arbitrary amount.) -/
theorem position_sizing_cap (instr : Instrument) (equity price atr_val : ℚ)
    (heq : 0 < equity) (hp : 0 < price) (hatr : 0 < atr_val)
    (hstep : 1/1000000 ≤ instr.qty_step)
    (hmin : instr.min_qty * price ≤ equity * MAX_POS_EQUITY_FRAC * MAX_LEVERAGE) :
    Bot.position_sizing instr equity price atr_val * price ≤
      equity * MAX_POS_EQUITY_FRAC * MAX_LEVERAGE + instr.qty_step * price := by
  have hstep0 : 0 < instr.qty_step := lt_of_lt_of_le (by norm_num) hstep
  have hps : Bot.position_sizing instr equity price atr_val =
      Bot.fmt6 (max (round_step
        (min ((equity * RISK_PCT) / max (atr_val * ATR_SL_MULT) (price * (2/1000)))
          ((equity * MAX_POS_EQUITY_FRAC * MAX_LEVERAGE) / price))
        instr.qty_step) instr.min_qty) := rfl
  set cap := equity * MAX_POS_EQUITY_FRAC * MAX_LEVERAGE with hcap
  set q1 := min ((equity * RISK_PCT) / max (atr_val * ATR_SL_MULT) (price * (2/1000)))
    (cap / price) with hq1
  have hr : round_step q1 instr.qty_step ≤ cap / price :=
    (round_step_le _ _ hstep0).trans (min_le_right _ _)
  have hm : instr.min_qty ≤ cap / price := by
    rw [le_div_iff₀ hp]; exact hmin
  have hq2 : max (round_step q1 instr.qty_step) instr.min_qty ≤ cap / price :=
    max_le hr hm
  have hf : Bot.fmt6 (max (round_step q1 instr.qty_step) instr.min_qty) ≤
      cap / price + instr.qty_step / 2 := by
    have := fmt6_le (max (round_step q1 instr.qty_step) instr.min_qty)
    have h6 : (1:ℚ)/2000000 ≤ instr.qty_step / 2 := by linarith
    linarith
  rw [hps]
  calc Bot.fmt6 (max (round_step q1 instr.qty_step) instr.min_qty) * price
      ≤ (cap / price + instr.qty_step / 2) * price :=
        mul_le_mul_of_nonneg_right hf hp.le
    _ = cap + instr.qty_step / 2 * price := by
        rw [add_mul, div_mul_cancel₀ _ hp.ne']
    _ ≤ cap + instr.qty_step * price := by nlinarith

theorem position_sizing_cap_witness :
    Bot.position_sizing ⟨1/10, 1/100, 1/100, 10⟩ 10000 100 2 * 100 ≤
      10000 * MAX_POS_EQUITY_FRAC * MAX_LEVERAGE + (1/10) * 100 :=
  position_sizing_cap ⟨1/10, 1/100, 1/100, 10⟩ 10000 100 2
    (by norm_num) (by norm_num) (by norm_num) (by norm_num)
    (by norm_num [MAX_POS_EQUITY_FRAC, MAX_LEVERAGE])

theorem foldl_gain_loss (f : ℕ → ℚ) (l : List ℕ) (a b : ℚ) :
    l.foldl (fun (p : ℚ × ℚ) j =>
        if 0 ≤ f j then (p.1 + f j, p.2) else (p.1, p.2 - f j)) (a, b)
      = (a + ((l.map f).map (fun d => if 0 ≤ d then d else 0)).sum,
         b + ((l.map f).map (fun d => if 0 ≤ d then 0 else -d)).sum) := by
  induction l generalizing a b with
  | nil => simp
  | cons j l ih =>
    simp only [List.foldl_cons, List.map_cons, List.sum_cons]
    by_cases hd : 0 ≤ f j
    · rw [if_pos hd, ih, if_pos hd, if_pos hd]
      simp only [Prod.mk.injEq]
      constructor <;> ring
    · rw [if_neg hd, ih, if_neg hd, if_neg hd]
      simp only [Prod.mk.injEq]
      constructor <;> ring

/-- C7: on any series of at least `N+1` points, the RSI loop computes
the sum of gains and the sum of absolute losses over the last `N`
consecutive differences, returning `100` when the loss sum is zero and
`100 − 100/(1 + gains/losses)` otherwise. -/
theorem rsi_eq_spec (values : List ℚ) (n : ℕ) (h : n + 1 ≤ values.length) :
    rsi values n = some (if lossSum values n = 0 then 100
      else 100 - 100 / (1 + gainSum values n / lossSum values n)) := by
  have hnot : ¬ values.length < n + 1 := not_lt.mpr h
  have hdiffs : (List.range n).map (fun j =>
      values.getD (values.length - n + j) 0 -
        values.getD (values.length - n + j - 1) 0) = lastDiffs values n := by
    apply List.ext_getElem
    · simp [lastDiffs]
      omega
    · intro i h1 h2
      have hi : i < n := by simpa using h1
      simp only [List.getElem_map, List.getElem_range, lastDiffs, List.getElem_zipWith,
        List.getElem_drop]
      have hb1 : values.length - (n + 1) + (1 + i) < values.length := by omega
      have hb2 : values.length - (n + 1) + i < values.length := by omega
      rw [← List.getD_eq_getElem values 0 hb1, ← List.getD_eq_getElem values 0 hb2]
      rw [show values.length - (n + 1) + (1 + i) = values.length - n + i by omega,
        show values.length - (n + 1) + i = values.length - n + i - 1 by omega]
  have hfold := foldl_gain_loss (fun j =>
    values.getD (values.length - n + j) 0 -
      values.getD (values.length - n + j - 1) 0) (List.range n) 0 0
  rw [rsi, if_neg hnot]
  dsimp only
  rw [hfold, hdiffs]
  simp only [zero_add]
  rw [gainSum, lossSum]
  split_ifs <;> rfl

theorem rsi_eq_spec_witness :
    rsi [1, 2, 3, 2, 1] 3 = some (if lossSum [1, 2, 3, 2, 1] 3 = 0 then 100
      else 100 - 100 / (1 + gainSum [1, 2, 3, 2, 1] 3 / lossSum [1, 2, 3, 2, 1] 3)) :=
  rsi_eq_spec [1, 2, 3, 2, 1] 3 (by norm_num)
